import Mathlib

/-!
Shallow embedding of the ghostcomplete autocomplete engine
(src/src/index.ts).  The source file contains two self-contained
IIFE variants concatenated:

* variant 1 (lines 1-1412): context-aware autocomplete with a pattern
  predictor (savePattern / predictNextWords / getContextWords);
* variant 2 (lines 1413-2466): word-learning autocomplete with
  frequency/recency entries and score-based eviction (saveWord with
  WordEntry records, flushStorageSync, findSuggestionsForToken).

The embedding below models the learning/suggestion engine: the DOM,
rendering, caret geometry and timer plumbing are out of scope (the spec
explicitly excludes them).  JavaScript data is modelled as follows:

* plain objects with string keys are association lists in property
  insertion order (new keys are appended; assignment to an existing key
  keeps its position), matching JS enumeration order for the
  non-numeric single-character and word keys used by this engine;
* a JS Set is a duplicate-free list in insertion order;
* JS numbers used for timestamps/scores are rationals;
* localStorage is a keyed map whose JSON payload is abstracted as the
  serialized data itself.
-/

/-- Association-list lookup, modelling reading a JS object property. -/
def lookupA {α : Type} : List (String × α) → String → Option α
  | [], _ => none
  | (k', v) :: rest, k => if k' = k then some v else lookupA rest k

/-- Association-list update, modelling JS property assignment: an existing
key is overwritten in place, a new key is appended (JS enumeration order). -/
def setA {α : Type} : List (String × α) → String → α → List (String × α)
  | [], k, v => [(k, v)]
  | (k', v') :: rest, k, v =>
    if k' = k then (k', v) :: rest else (k', v') :: setA rest k v

/-- Set.add on a JS Set modelled as a duplicate-free list in insertion order. -/
def addSet (s : List String) (k : String) : List String :=
  if s.contains k then s else s ++ [k]

/-- JS String.prototype.toLowerCase, written over the character list so that
concrete instances reduce.  Only ASCII letters occur in the examples, where
Char.toLower agrees with the JS behaviour. -/
def jsLower (s : String) : String :=
  String.mk (s.data.map Char.toLower)

/-- JS String.prototype.trim: drop whitespace from both ends. -/
def jsTrim (s : String) : String :=
  String.mk (((s.data.dropWhile Char.isWhitespace).reverse.dropWhile
    Char.isWhitespace).reverse)

/-- Length of a string in characters, modelling JS String.length for the
basic-plane strings this engine sees. -/
def jsLen (s : String) : Nat :=
  s.data.length

/-- Helper for jsSplitWs: walks the characters, accumulating the current
word (reversed). -/
def splitWsAux : List Char → List Char → List String
  | [], cur => if cur.isEmpty then [] else [String.mk cur.reverse]
  | c :: cs, cur =>
    if c.isWhitespace then
      if cur.isEmpty then splitWsAux cs [] else String.mk cur.reverse :: splitWsAux cs []
    else
      splitWsAux cs (c :: cur)

/-- JS text.split(whitespace-run).filter(Boolean): the non-empty
whitespace-separated words of a string. -/
def jsSplitWs (s : String) : List String :=
  splitWsAux s.data []

/-!
The Trie.  Both variants define the identical TrieNode/Trie classes
(variant 1 lines 134-180, variant 2 lines 1523-1566): nodes hold only an
isWord flag and a children map keyed by single characters; insert walks
the lowercased word; search descends along the lowercased query and then
collects words depth-first up to the limit, rebuilding each reported word
as the query text as typed plus the path characters.  The node is the
whole trie (the class Trie wraps a root node).
-/

inductive Trie where
  | node (isWord : Bool) (children : List (Char × Trie))

/-- Reading node.children[ch] in the JS trie. -/
def childFind : List (Char × Trie) → Char → Option Trie
  | [], _ => none
  | (c', t) :: cs, c => if c' = c then some t else childFind cs c

/-- Writing node.children[ch] in the JS trie (in place, or appended when new). -/
def childSet : List (Char × Trie) → Char → Trie → List (Char × Trie)
  | [], c, t => [(c, t)]
  | (c', t') :: cs, c, t =>
    if c' = c then (c', t) :: cs else (c', t') :: childSet cs c t

/-- The node with no children that is not a word: new TrieNode(). -/
def Trie.empty : Trie := .node false []

/-- Walk of Trie.insert along the (already lowercased) character path:
missing children are created, and the final node is flagged as a word. -/
def Trie.insertList : Trie → List Char → Trie
  | .node _ cs, [] => .node true cs
  | .node b cs, c :: rest =>
    .node b (childSet cs c
      (Trie.insertList ((childFind cs c).getD Trie.empty) rest))

/-- Trie.insert(word): no-op on the empty string, otherwise insert along
the lowercased characters of the word. -/
def Trie.insertW (t : Trie) (word : String) : Trie :=
  if word = "" then t else t.insertList (jsLower word).data

/-- Descent loop at the start of Trie.search: follow the lowercased query
characters, failing if a child is missing. -/
def descendList : Trie → List Char → Option Trie
  | t, [] => some t
  | .node _ cs, c :: rest =>
    match childFind cs c with
    | none => none
    | some t' => descendList t' rest

mutual
/-- Trie._collect on a node: stop when the limit is reached, report the
accumulated path when the node is a word, then visit the children in order. -/
def collectGo : Trie → List Char → List (List Char) → Nat → List (List Char)
  | .node isW cs, pre, acc, limit =>
    if acc.length ≥ limit then acc
    else
      let acc1 := if isW then acc ++ [pre] else acc
      if acc1.length ≥ limit then acc1
      else collectKids cs pre acc1 limit
/-- Trie._collect's child loop: visit each child with its character appended
to the path, stopping as soon as the limit is reached. -/
def collectKids : List (Char × Trie) → List Char → List (List Char) → Nat → List (List Char)
  | [], _, acc, _ => acc
  | (c, t) :: rest, pre, acc, limit =>
    let acc1 := collectGo t (pre ++ [c]) acc limit
    if acc1.length ≥ limit then acc1
    else collectKids rest pre acc1 limit
end

/-- Trie.search(prefix, limit): empty query yields nothing; otherwise descend
along the lowercased query and collect up to limit words, each built from the
query exactly as typed (prefix.slice(0, prefix.length)) plus path characters. -/
def Trie.search (t : Trie) (pfx : String) (limit : Nat) : List String :=
  if pfx = "" then []
  else
    match descendList t (jsLower pfx).data with
    | none => []
    | some nd => (collectGo nd pfx.data [] limit).map String.mk

/-- Trie rebuilt from a word list: rebuildTrieForGroup inserts the cached
words from the last index down to index 0. -/
def rebuildTrie (words : List String) : Trie :=
  words.reverse.foldl (fun t w => t.insertW w) Trie.empty

namespace V1

/-!
Variant 1 (lines 1-1412): the context-aware variant with the pattern
predictor.  Modelled here: getContextWords (lines 349-358) and
predictNextWords (lines 361-385) over a group's pattern cache.
-/

/-- Numeric group configuration of variant 1 (timer delays and CSS class
hooks are omitted: the modelled operations do not read them). -/
structure Config where
  MAX_WORDS : Nat
  MAX_PATTERNS : Nat
  MAX_SUGGESTIONS : Nat
  MAX_STABLE : Nat
  MAX_TOTAL : Nat
deriving DecidableEq, Repr

/-- DEFAULT_CONFIG of variant 1 (lines 48-57). -/
def DEFAULT_CONFIG : Config :=
  { MAX_WORDS := 300, MAX_PATTERNS := 100, MAX_SUGGESTIONS := 5
    MAX_STABLE := 10, MAX_TOTAL := 15 }

/-- A group's pattern cache: context key to (candidate word to count),
both maps in property insertion order. -/
def PatternCache : Type := List (String × List (String × Nat))

/-- Weight given to one candidate occurrence count found under the context
at position priority of the context list: count * (3 - priority)
(line 374; JS subtraction, hence the integer result). -/
def weight (count : Nat) (priority : Nat) : Int :=
  (count : Int) * (3 - (priority : Int))

/-- suggestions[w] = (suggestions[w] || 0) + add: accumulate into the
suggestion score map, appending new words at the end. -/
def upsertAdd : List (String × Int) → String → Int → List (String × Int)
  | [], k, v => [(k, v)]
  | (k', v') :: rest, k, v =>
    if k' = k then (k', v' + v) :: rest else (k', v') :: upsertAdd rest k v

/-- Inner loop of predictNextWords for one matched context: fold the
candidate map into the suggestion scores with the weight of this priority. -/
def accumContext (sugg : List (String × Int)) (ctxObj : List (String × Nat))
    (priority : Nat) : List (String × Int) :=
  ctxObj.foldl (fun s p => upsertAdd s p.1 (weight p.2 priority)) sugg

/-- contexts.forEach of predictNextWords: look up each context key
(lowercased) and accumulate its candidates; unmatched contexts are skipped. -/
def accumScores (contexts : List String) (patterns : PatternCache) :
    List (String × Int) :=
  contexts.enum.foldl
    (fun sugg pr =>
      match lookupA patterns (jsLower pr.2) with
      | none => sugg
      | some ctxObj => accumContext sugg ctxObj pr.1)
    []

/-- Stable descending sort by score, modelling Array.prototype.sort with
comparator (a, b) => b.score - a.score (the ES spec makes sort stable and
otherwise determined by the comparator). -/
def sortDescInt (l : List (String × Int)) : List (String × Int) :=
  List.insertionSort (fun a b => b.2 ≤ a.2) l

/-- predictNextWords (lines 361-385) for a loaded group: accumulate weighted
scores over the matched contexts, sort entries descending by score, and
return the first MAX_SUGGESTIONS words. -/
def predictNextWords (contexts : List String) (patterns : PatternCache)
    (cfg : Config) : List String :=
  (((sortDescInt (accumScores contexts patterns)).map Prod.fst).take
    cfg.MAX_SUGGESTIONS)

/-- Last n elements of a list: words.slice(-n) for n ≥ 1. -/
def takeLast {α : Type} (l : List α) (n : Nat) : List α :=
  l.drop (l.length - n)

/-- getContextWords (lines 349-358): the whitespace words before the caret,
joined into the trailing 1-word, 2-word and 3-word context strings, ordered
from shortest to longest. -/
def getContextWords (text : String) (caretPos : Nat) : List String :=
  let words := jsSplitWs (String.mk (text.data.take caretPos))
  if words.length = 0 then []
  else
    [" ".intercalate (takeLast words 1)]
      ++ (if words.length ≥ 2 then [" ".intercalate (takeLast words 2)] else [])
      ++ (if words.length ≥ 3 then [" ".intercalate (takeLast words 3)] else [])

end V1

namespace V2

/-!
Variant 2 (lines 1413-2466): the word-learning variant.  Per group it keeps
an ordered surface-form list together with a map of lowercased word to
{lastUsed, frequency}, evicts by score when the list exceeds MAX_WORDS,
and serves completions from the trie.
-/

/-- Numeric group configuration of variant 2 (timer delays and CSS class
hooks are omitted: the modelled operations do not read them). -/
structure Config where
  MAX_WORDS : Nat
  MAX_SUGGESTIONS : Nat
  MAX_STABLE : Nat
deriving DecidableEq, Repr

/-- DEFAULT_CONFIG of variant 2 (lines 1452-1459). -/
def DEFAULT_CONFIG : Config :=
  { MAX_WORDS := 300, MAX_SUGGESTIONS := 5, MAX_STABLE := 100 }

/-- WordEntry (lines 1443-1446): recency timestamp and frequency of one
normalized word. -/
structure WordEntry where
  lastUsed : ℚ
  frequency : Nat
deriving DecidableEq, Repr

/-- One group's cell of wordsCacheMap: the ordered surface-form list and the
entries map keyed by lowercased word. -/
structure GroupCache where
  words : List String
  entries : List (String × WordEntry)
deriving DecidableEq, Repr

/-- Whole in-memory engine state: wordsCacheMap, trieMap, the pending-flush
set of pendingStorage.words, and localStorage (payload abstracted as the
serialized {words, entries} data). -/
structure EngineState where
  caches : List (String × GroupCache)
  tries : List (String × Trie)
  pendingWords : List String
  storage : List (String × GroupCache)

/-- State before any observation or load. -/
def emptyState : EngineState :=
  { caches := [], tries := [], pendingWords := [], storage := [] }

/-- Cache key of a group: group || "default" (lines 1569, 1603, 1648), the
falsy empty string collapsing onto "default". -/
def cacheKey (group : String) : String :=
  if group = "" then "default" else group

/-- getStorageKeys (lines 1516-1521): the localStorage key of a group's
word data. -/
def wordsKey (group : String) : String :=
  "ac_w" ++ (if group = "" then "" else "_" ++ group) ++ "_v3"

/-- Entry update of saveWord (lines 1656-1662): create {lastUsed: now,
frequency: 1} for a new key (appended, JS property order), else refresh
lastUsed and increment frequency in place. -/
def updateEntries : List (String × WordEntry) → String → ℚ → List (String × WordEntry)
  | [], lower, now => [(lower, { lastUsed := now, frequency := 1 })]
  | (k, e) :: rest, lower, now =>
    if k = lower then (k, { lastUsed := now, frequency := e.frequency + 1 }) :: rest
    else (k, e) :: updateEntries rest lower now

/-- Find-and-splice of saveWord (lines 1664-1672): remove the first cached
word whose lowercased form equals lower, if any. -/
def removeFirstLower : List String → String → List String
  | [], _ => []
  | w :: ws, lower => if jsLower w = lower then ws else w :: removeFirstLower ws lower

/-- Words list after the splice and unshift of saveWord (lines 1664-1675):
the saved word moves to the front, its previous occurrence removed. -/
def insertWordList (words : List String) (word : String) : List String :=
  word :: removeFirstLower words (jsLower word)

/-- Floor of the recency factor in the eviction score: 0.1 (line 1684). -/
def SCORE_FLOOR : ℚ := 1 / 10

/-- Decay window of the eviction score: 7 * 24 * 60 * 60 * 1000 ms, one
week (line 1684). -/
def DECAY_WINDOW_MS : ℚ := 7 * 24 * 60 * 60 * 1000

/-- Eviction score of a cached word (lines 1683-1684):
frequency * max(0.1, 1 - (now - lastUsed) / week), with frequency and
lastUsed defaulting to 0 when the entry is missing. -/
def scoreOf (entries : List (String × WordEntry)) (now : ℚ) (w : String) : ℚ :=
  let freq : ℚ := match lookupA entries (jsLower w) with
    | some e => (e.frequency : ℚ)
    | none => 0
  let lastUsed : ℚ := match lookupA entries (jsLower w) with
    | some e => e.lastUsed
    | none => 0
  freq * max SCORE_FLOOR (1 - (now - lastUsed) / DECAY_WINDOW_MS)

/-- Stable descending sort by score, modelling Array.prototype.sort with
comparator (a, b) => b.score - a.score (the ES spec makes sort stable and
otherwise determined by the comparator). -/
def sortDesc (l : List (String × ℚ)) : List (String × ℚ) :=
  List.insertionSort (fun a b => b.2 ≤ a.2) l

/-- Cache part of saveWord (lines 1653-1698) for an already trimmed, valid
word: update the entry, move the word to the front, and when the list then
exceeds MAX_WORDS, keep the MAX_STABLE best-scoring words and drop the
entries of every word that did not survive. -/
def saveWordCore (cfg : Config) (now : ℚ) (word : String) (c : GroupCache) :
    GroupCache :=
  let lower := jsLower word
  let entries1 := updateEntries c.entries lower now
  let words1 := insertWordList c.words word
  if words1.length > cfg.MAX_WORDS then
    let scored := words1.map (fun x => (x, scoreOf entries1 now x))
    let kept := ((sortDesc scored).take cfg.MAX_STABLE).map Prod.fst
    let keptLower := kept.map jsLower
    { words := kept, entries := entries1.filter (fun p => keptLower.contains p.1) }
  else
    { words := words1, entries := entries1 }

/-- loadWords (lines 1568-1600): return the cached words when resident, else
read the blob (missing data giving the empty vocabulary), truncate to
MAX_WORDS, install the cache and rebuild the trie under the cache key.
The malformed-JSON catch branch has no counterpart because the modelled
store is typed; it likewise installs an empty vocabulary. -/
def loadWords (cfgOf : String → Config) (group : String) (st : EngineState) :
    List String × EngineState :=
  let ck := cacheKey group
  match lookupA st.caches ck with
  | some c => (c.words, st)
  | none =>
    let cfg := cfgOf group
    let data := (lookupA st.storage (wordsKey group)).getD
      { words := [], entries := [] }
    let c : GroupCache := { words := data.words.take cfg.MAX_WORDS
                            entries := data.entries }
    (c.words,
      { st with caches := setA st.caches ck c
                tries := setA st.tries ck (rebuildTrie c.words) })

/-- saveWord (lines 1644-1704).  cfgOf models getGroupConfig over the group
configurations, fixed for the run.  A word whose trimmed form is empty or
shorter than 3 characters is rejected before any state is touched; otherwise
the group is lazily loaded, the cache updated (with possible eviction), the
word inserted into the group's trie (rebuilt from the current cache only if
absent), and the group queued for storage sync. -/
def saveWord (cfgOf : String → Config) (word0 : String) (group : String)
    (now : ℚ) (st : EngineState) : EngineState :=
  let word := jsTrim word0
  if word = "" ∨ jsLen word < 3 then st
  else
    let ck := cacheKey group
    let st1 := if (lookupA st.caches ck).isSome then st
               else (loadWords cfgOf group st).2
    let cfg := cfgOf group
    let c := (lookupA st1.caches ck).getD { words := [], entries := [] }
    let c' := saveWordCore cfg now word c
    let tr := match lookupA st1.tries ck with
      | some t => t
      | none => rebuildTrie c'.words
    { caches := setA st1.caches ck c'
      tries := setA st1.tries ck (tr.insertW word)
      pendingWords := addSet st1.pendingWords group
      storage := st1.storage }

/-- findSuggestionsForToken (lines 1854-1862): empty token yields nothing;
otherwise ensure the group is loaded, search the trie under the raw group
name (the source reads trieMap[group], not trieMap[cacheKey]) with limit
MAX_SUGGESTIONS, drop results equal to the token case-insensitively, and
truncate to MAX_SUGGESTIONS. -/
def findSuggestionsForToken (cfgOf : String → Config) (token : String)
    (group : String) (st : EngineState) : List String × EngineState :=
  if token = "" then ([], st)
  else
    let st1 := if (lookupA st.tries group).isSome then st
               else (loadWords cfgOf group st).2
    let cfg := cfgOf group
    match lookupA st1.tries group with
    | none => ([], st1)
    | some trie =>
      (((trie.search token cfg.MAX_SUGGESTIONS).filter
          (fun w => jsLower w ≠ jsLower token)).take cfg.MAX_SUGGESTIONS, st1)

/-- Body of the pendingStorage.words.forEach of flushStorageSync (lines
1626-1639): write one pending group's cache (words truncated to MAX_WORDS,
with the entries map) to its storage key; writeOk tells whether the
localStorage.setItem of that group succeeds, a failure being swallowed by
the empty catch. -/
def flushStep (cfgOf : String → Config) (writeOk : String → Bool)
    (s : EngineState) (group : String) : EngineState :=
  match lookupA s.caches (cacheKey group) with
  | none => s
  | some cache =>
    if writeOk group then
      let blob : GroupCache :=
        { words := cache.words.take (cfgOf group).MAX_WORDS
          entries := cache.entries }
      { s with storage := setA s.storage (wordsKey group) blob }
    else s

/-- flushStorageSync (lines 1625-1642): attempt the write of every pending
group in insertion order, then clear the whole pending set. -/
def flushStorageSync (cfgOf : String → Config) (writeOk : String → Bool)
    (st : EngineState) : EngineState :=
  let st1 := st.pendingWords.foldl (flushStep cfgOf writeOk) st
  { st1 with pendingWords := [] }

/-- GhostComplete.listWords (lines 2435-2437): the words of loadWords. -/
def listWords (cfgOf : String → Config) (group : String) (st : EngineState) :
    List String × EngineState :=
  loadWords cfgOf group st

/-- n observations of the same word on one group cache (saveWordCore applied
n times). -/
def iterateSave (cfg : Config) (now : ℚ) (w : String) : Nat → GroupCache → GroupCache
  | 0, c => c
  | n + 1, c => iterateSave cfg now w n (saveWordCore cfg now w c)

end V2

/-!
Helper lemmas shared by the claim theorems.
-/

instance : IsTotal (String × ℚ) (fun a b => b.2 ≤ a.2) :=
  ⟨fun a b => le_total b.2 a.2⟩

instance : IsTrans (String × ℚ) (fun a b => b.2 ≤ a.2) :=
  ⟨fun _ _ _ h1 h2 => le_trans h2 h1⟩

instance : IsTotal (String × Int) (fun a b => b.2 ≤ a.2) :=
  ⟨fun a b => le_total b.2 a.2⟩

instance : IsTrans (String × Int) (fun a b => b.2 ≤ a.2) :=
  ⟨fun _ _ _ h1 h2 => le_trans h2 h1⟩

theorem sortDesc_perm (l : List (String × ℚ)) : List.Perm (V2.sortDesc l) l :=
  List.perm_insertionSort _ l

theorem sortDesc_pairwise (l : List (String × ℚ)) :
    (V2.sortDesc l).Pairwise (fun a b => b.2 ≤ a.2) :=
  List.sorted_insertionSort _ l

theorem sortDescInt_perm (l : List (String × Int)) : List.Perm (V1.sortDescInt l) l :=
  List.perm_insertionSort _ l

theorem sortDescInt_pairwise (l : List (String × Int)) :
    (V1.sortDescInt l).Pairwise (fun a b => b.2 ≤ a.2) :=
  List.sorted_insertionSort _ l

theorem lookupA_setA_self {α : Type} (m : List (String × α)) (k : String) (v : α) :
    lookupA (setA m k v) k = some v := by
  induction m with
  | nil => simp [setA, lookupA]
  | cons p rest ih =>
    by_cases h : p.1 = k
    · simp [setA, lookupA, h]
    · simp [setA, lookupA, h, ih]

theorem lookupA_setA_ne {α : Type} (m : List (String × α)) (k k' : String) (v : α)
    (h : k ≠ k') : lookupA (setA m k v) k' = lookupA m k' := by
  induction m with
  | nil => simp [setA, lookupA, h]
  | cons p rest ih =>
    by_cases hp : p.1 = k
    · simp only [setA, lookupA, hp, if_pos rfl]
      rw [if_neg (hp ▸ h), if_neg (hp ▸ h)]
    · simp only [setA, lookupA, if_neg hp]
      by_cases hp' : p.1 = k'
      · rw [if_pos hp', if_pos hp']
      · rw [if_neg hp', if_neg hp', ih]

theorem lookupA_filter_keypred {α : Type} (m : List (String × α)) (pred : String → Bool)
    (k : String) (h : pred k = false) :
    lookupA (m.filter (fun p => pred p.1)) k = none := by
  induction m with
  | nil => simp [lookupA]
  | cons p rest ih =>
    by_cases hp : pred p.1
    · rw [List.filter_cons_of_pos (by simpa using hp)]
      have hne : p.1 ≠ k := fun he => by rw [he, h] at hp; exact Bool.noConfusion hp
      simpa [lookupA, hne] using ih
    · rw [List.filter_cons_of_neg (by simpa using hp)]
      exact ih

theorem updateEntries_fresh (entries : List (String × V2.WordEntry)) (lower : String)
    (now : ℚ) (h : ∀ p ∈ entries, p.1 ≠ lower) :
    V2.updateEntries entries lower now = entries ++ [(lower, { lastUsed := now, frequency := 1 })] := by
  induction entries with
  | nil => simp [V2.updateEntries]
  | cons p rest ih =>
    have hp : p.1 ≠ lower := h p (List.mem_cons_self p rest)
    cases p with
    | mk k e =>
      simp only [V2.updateEntries, if_neg hp, List.cons_append, List.cons.injEq, true_and]
      exact ih (fun q hq => h q (List.mem_cons_of_mem _ hq))

theorem updateEntries_again (entries : List (String × V2.WordEntry)) (lower : String)
    (now : ℚ) (e : V2.WordEntry) (h : ∀ p ∈ entries, p.1 ≠ lower) :
    V2.updateEntries (entries ++ [(lower, e)]) lower now =
      entries ++ [(lower, { lastUsed := now, frequency := e.frequency + 1 })] := by
  induction entries with
  | nil => simp [V2.updateEntries]
  | cons p rest ih =>
    have hp : p.1 ≠ lower := h p (List.mem_cons_self p rest)
    cases p with
    | mk k e' =>
      simp only [List.cons_append, V2.updateEntries, if_neg hp, List.cons.injEq, true_and]
      exact ih (fun q hq => h q (List.mem_cons_of_mem _ hq))

theorem removeFirstLower_fresh (ws : List String) (lower : String)
    (h : ∀ x ∈ ws, jsLower x ≠ lower) : V2.removeFirstLower ws lower = ws := by
  induction ws with
  | nil => rfl
  | cons w rest ih =>
    have hw : jsLower w ≠ lower := h w (List.mem_cons_self w rest)
    simp only [V2.removeFirstLower, if_neg hw, List.cons.injEq, true_and]
    exact ih (fun x hx => h x (List.mem_cons_of_mem _ hx))

theorem saveWordCore_fresh (cfg : V2.Config) (now : ℚ) (w : String) (c : V2.GroupCache)
    (hfe : ∀ p ∈ c.entries, p.1 ≠ jsLower w)
    (hfw : ∀ x ∈ c.words, jsLower x ≠ jsLower w)
    (hcap : c.words.length + 1 ≤ cfg.MAX_WORDS) :
    V2.saveWordCore cfg now w c =
      { words := w :: c.words
        entries := c.entries ++ [(jsLower w, { lastUsed := now, frequency := 1 })] } := by
  have hrm : V2.removeFirstLower c.words (jsLower w) = c.words := removeFirstLower_fresh _ _ hfw
  have hlen : ¬ (w :: c.words).length > cfg.MAX_WORDS := by
    simp only [List.length_cons]
    omega
  simp only [V2.saveWordCore, V2.insertWordList, hrm,
    updateEntries_fresh c.entries (jsLower w) now hfe, if_neg hlen]

theorem saveWordCore_again (cfg : V2.Config) (now : ℚ) (w : String) (pre : List String)
    (ents : List (String × V2.WordEntry)) (e : V2.WordEntry)
    (hfe : ∀ p ∈ ents, p.1 ≠ jsLower w)
    (hcap : pre.length + 1 ≤ cfg.MAX_WORDS) :
    V2.saveWordCore cfg now w
      { words := w :: pre, entries := ents ++ [(jsLower w, e)] } =
      { words := w :: pre
        entries := ents ++ [(jsLower w, { lastUsed := now, frequency := e.frequency + 1 })] } := by
  have hrm : V2.removeFirstLower (w :: pre) (jsLower w) = pre := by
    simp [V2.removeFirstLower]
  have hlen : ¬ (w :: pre).length > cfg.MAX_WORDS := by
    simp only [List.length_cons]
    omega
  simp only [V2.saveWordCore, V2.insertWordList, hrm,
    updateEntries_again ents (jsLower w) now e hfe, if_neg hlen]

theorem iterateSave_succ_out (cfg : V2.Config) (now : ℚ) (w : String) (n : Nat)
    (c : V2.GroupCache) :
    V2.iterateSave cfg now w (n + 1) c =
      V2.saveWordCore cfg now w (V2.iterateSave cfg now w n c) := by
  induction n generalizing c with
  | zero => rfl
  | succ n ih =>
    show V2.iterateSave cfg now w (n + 1) (V2.saveWordCore cfg now w c) = _
    rw [ih]
    rfl

theorem iterateSave_closed (cfg : V2.Config) (now : ℚ) (w : String) (n : Nat)
    (c0 : V2.GroupCache) (hn : 1 ≤ n)
    (hfe : ∀ p ∈ c0.entries, p.1 ≠ jsLower w)
    (hfw : ∀ x ∈ c0.words, jsLower x ≠ jsLower w)
    (hcap : c0.words.length + 1 ≤ cfg.MAX_WORDS) :
    V2.iterateSave cfg now w n c0 =
      { words := w :: c0.words
        entries := c0.entries ++ [(jsLower w, { lastUsed := now, frequency := n })] } := by
  induction n with
  | zero => omega
  | succ n ih =>
    rcases Nat.eq_or_lt_of_le hn with h1 | h1
    · have hz : n = 0 := by omega
      subst hz
      show V2.iterateSave cfg now w 0 (V2.saveWordCore cfg now w c0) = _
      simp only [V2.iterateSave]
      exact saveWordCore_fresh cfg now w c0 hfe hfw hcap
    · have hn' : 1 ≤ n := by omega
      rw [iterateSave_succ_out, ih hn']
      exact saveWordCore_again cfg now w c0.words c0.entries _ hfe hcap

theorem flushFold_caches (cfgOf : String → V2.Config) (writeOk : String → Bool)
    (pend : List String) (st : V2.EngineState) :
    (pend.foldl (V2.flushStep cfgOf writeOk) st).caches = st.caches ∧
    (pend.foldl (V2.flushStep cfgOf writeOk) st).tries = st.tries ∧
    (pend.foldl (V2.flushStep cfgOf writeOk) st).pendingWords = st.pendingWords := by
  induction pend generalizing st with
  | nil => exact ⟨rfl, rfl, rfl⟩
  | cons g rest ih =>
    have hstep : (V2.flushStep cfgOf writeOk st g).caches = st.caches ∧
        (V2.flushStep cfgOf writeOk st g).tries = st.tries ∧
        (V2.flushStep cfgOf writeOk st g).pendingWords = st.pendingWords := by
      unfold V2.flushStep
      cases lookupA st.caches (V2.cacheKey g) with
      | none => exact ⟨rfl, rfl, rfl⟩
      | some cache =>
        by_cases h : writeOk g
        · simp [h]
        · simp [h]
    have := ih (V2.flushStep cfgOf writeOk st g)
    simp only [List.foldl_cons]
    exact ⟨this.1.trans hstep.1, (this.2.1).trans hstep.2.1, (this.2.2).trans hstep.2.2⟩

theorem flushFold_storage_allfail (cfgOf : String → V2.Config) (writeOk : String → Bool)
    (pend : List String) (st : V2.EngineState) (hfail : ∀ g, writeOk g = false) :
    (pend.foldl (V2.flushStep cfgOf writeOk) st).storage = st.storage := by
  induction pend generalizing st with
  | nil => rfl
  | cons g rest ih =>
    have hstep : V2.flushStep cfgOf writeOk st g = st := by
      unfold V2.flushStep
      cases lookupA st.caches (V2.cacheKey g) with
      | none => rfl
      | some cache => simp [hfail g]
    simp only [List.foldl_cons, hstep]
    exact ih st

mutual
theorem collectGo_shape (t : Trie) (pre : List Char) (acc : List (List Char))
    (limit : Nat) (w : List Char) (hw : w ∈ collectGo t pre acc limit) :
    w ∈ acc ∨ ∃ suf, w = pre ++ suf :=
  match t with
  | .node isW cs => by
    simp only [collectGo] at hw
    by_cases h1 : acc.length ≥ limit
    · rw [if_pos h1] at hw
      exact Or.inl hw
    · rw [if_neg h1] at hw
      have hmem : ∀ x ∈ (if isW then acc ++ [pre] else acc),
          x ∈ acc ∨ ∃ suf, x = pre ++ suf := by
        intro x hx
        by_cases hb : isW
        · rw [if_pos hb] at hx
          rcases List.mem_append.mp hx with h | h
          · exact Or.inl h
          · exact Or.inr ⟨[], by rw [List.mem_singleton.mp h, List.append_nil]⟩
        · rw [if_neg hb] at hx
          exact Or.inl hx
      by_cases h2 : (if isW then acc ++ [pre] else acc).length ≥ limit
      · rw [if_pos h2] at hw
        exact hmem w hw
      · rw [if_neg h2] at hw
        rcases collectKids_shape cs pre _ limit w hw with h | h
        · exact hmem w h
        · exact Or.inr h

theorem collectKids_shape (cs : List (Char × Trie)) (pre : List Char)
    (acc : List (List Char)) (limit : Nat) (w : List Char)
    (hw : w ∈ collectKids cs pre acc limit) :
    w ∈ acc ∨ ∃ suf, w = pre ++ suf :=
  match cs with
  | [] => by
    simp only [collectKids] at hw
    exact Or.inl hw
  | (c, t) :: rest => by
    simp only [collectKids] at hw
    have hsub : ∀ x ∈ collectGo t (pre ++ [c]) acc limit,
        x ∈ acc ∨ ∃ suf, x = pre ++ suf := by
      intro x hx
      rcases collectGo_shape t (pre ++ [c]) acc limit x hx with h | ⟨suf, hs⟩
      · exact Or.inl h
      · refine Or.inr ⟨c :: suf, ?_⟩
        rw [hs, List.append_assoc]
        rfl
    by_cases h2 : (collectGo t (pre ++ [c]) acc limit).length ≥ limit
    · rw [if_pos h2] at hw
      exact hsub w hw
    · rw [if_neg h2] at hw
      rcases collectKids_shape rest pre _ limit w hw with h | h
      · exact hsub w h
      · exact Or.inr h
end

/-!
Claim theorems.
-/

/-- C8, counterexample: the claim says prefix search returns the stored
canonical surface form with its original casing.  After inserting the word
"CAT", searching for "CA" returns "CAt" (the query as typed plus the
lowercase trie path), not the stored surface form "CAT": terminal nodes
store no surface form at all. -/
theorem search_not_canonical_surface :
    ((Trie.empty.insertW "CAT").search "CA" 5 = ["CAt"]) ∧ "CAt" ≠ "CAT" := by
  decide

/-- C8 (amended): terminal nodes of the trie store only an isWord flag, no
surface form; every word reported by Trie.search is reconstructed as the
query exactly as typed followed by the lowercase path characters, so any
result extends the typed token literally and stored casing beyond the typed
part is not preserved. -/
theorem search_results_extend_typed_token (t : Trie) (pfx : String) (limit : Nat)
    (w : String) (hw : w ∈ t.search pfx limit) :
    ∃ suf : List Char, w.data = pfx.data ++ suf := by
  unfold Trie.search at hw
  by_cases h0 : pfx = ""
  · rw [if_pos h0] at hw
    simp at hw
  · rw [if_neg h0] at hw
    cases hd : descendList t (jsLower pfx).data with
    | none =>
      rw [hd] at hw
      simp at hw
    | some nd =>
      rw [hd] at hw
      rcases List.mem_map.mp hw with ⟨l, hl, rfl⟩
      rcases collectGo_shape nd pfx.data [] limit l hl with h | ⟨suf, rfl⟩
      · simp at h
      · exact ⟨suf, rfl⟩

/-- C8, witness for the amended theorem at a concrete instance. -/
theorem search_results_extend_typed_token_witness :
    "CAt" ∈ (Trie.empty.insertW "CAT").search "CA" 5 ∧
    ∃ suf : List Char, "CAt".data = "CA".data ++ suf :=
  ⟨by decide,
    search_results_extend_typed_token (Trie.empty.insertW "CAT") "CA" 5 "CAt" (by decide)⟩

/-- C9: a word whose trimmed form is empty or shorter than 3 characters is
rejected by the guard at the top of saveWord before any state is read or
written: the caches, tries, pending set and storage are all unchanged and
no error is raised (the function is total). -/
theorem saveWord_short_word_noop (cfgOf : String → V2.Config) (word : String)
    (group : String) (now : ℚ) (st : V2.EngineState)
    (h : jsTrim word = "" ∨ jsLen (jsTrim word) < 3) :
    V2.saveWord cfgOf word group now st = st := by
  simp only [V2.saveWord]
  rw [if_pos h]

/-- C9, witness: observing " ab " (trimmed length 2) changes nothing. -/
theorem saveWord_short_word_noop_witness :
    (jsTrim " ab " = "" ∨ jsLen (jsTrim " ab ") < 3) ∧
    V2.saveWord (fun _ => V2.DEFAULT_CONFIG) " ab " "g" 0 V2.emptyState = V2.emptyState :=
  ⟨by decide, saveWord_short_word_noop _ _ _ _ _ (by decide)⟩

/-- C10: with seven observed words "cat", "cata" ... "catf" in one group and
the default configuration (MAX_SUGGESTIONS = 5), the token "cat" has six
stored completions distinct from it, yet findSuggestionsForToken returns
only four words: the trie search stops after collecting five words
including the echoed token itself, and the case-insensitive exact-token
filter runs only afterwards, so the echo consumes a limit slot. -/
theorem findSuggestions_token_echo_truncation :
    ∃ (obs : List String) (token group : String) (cfgOf : String → V2.Config),
      token ≠ "" ∧
      (((V2.listWords cfgOf group (obs.foldl
            (fun s w => V2.saveWord cfgOf w group 0 s) V2.emptyState)).1.filter
          (fun w => (jsLower token).data.isPrefixOf (jsLower w).data &&
            jsLower w != jsLower token)).length >
        (cfgOf group).MAX_SUGGESTIONS) ∧
      ((V2.findSuggestionsForToken cfgOf token group (obs.foldl
            (fun s w => V2.saveWord cfgOf w group 0 s) V2.emptyState)).1.length <
        (cfgOf group).MAX_SUGGESTIONS) := by
  refine ⟨["cat", "cata", "catb", "catc", "catd", "cate", "catf"], "cat", "g",
    fun _ => V2.DEFAULT_CONFIG, by decide, by decide, by decide⟩

/-- C1, counterexample: the claim says a longer/more specific matched
context contributes at least as much weight per occurrence as a shorter
one.  getContextWords orders candidates from 1-word to 3-word context, so
the 1-word context gets priority index 0 and weight factor 3 while the
3-word context gets index 2 and weight factor 1: a single occurrence under
the most specific context scores 1, a single occurrence under the least
specific context scores 3, and the word from the shortest context is
ranked first. -/
theorem predictNextWords_shorter_context_outweighs :
    V1.getContextWords "u v w" 5 = ["w", "v w", "u v w"] ∧
    V1.accumScores ["w", "v w", "u v w"]
      [("w", [("x", 1)]), ("u v w", [("y", 1)])] = [("x", 3), ("y", 1)] ∧
    V1.weight 1 2 < V1.weight 1 0 ∧
    V1.predictNextWords ["w", "v w", "u v w"]
      [("w", [("x", 1)]), ("u v w", [("y", 1)])] V1.DEFAULT_CONFIG = ["x", "y"] := by
  decide

/-- C1 (amended): predictNextWords accumulates, per candidate word, count
times (3 - priorityIndex) over the matched contexts, where priority index 0
is the 1-word (least specific) context: the weight per occurrence is
antitone in the context length, favouring the shorter context.  The result
is the first MAX_SUGGESTIONS words of a stable descending sort of the
accumulated scores. -/
theorem predictNextWords_weighting_and_topk :
    (∀ (count i d : Nat), V1.weight count (i + d) ≤ V1.weight count i) ∧
    ∀ (contexts : List String) (patterns : V1.PatternCache) (cfg : V1.Config),
      ∃ l : List (String × Int),
        List.Perm (V1.accumScores contexts patterns) l ∧
        l.Pairwise (fun a b => b.2 ≤ a.2) ∧
        V1.predictNextWords contexts patterns cfg =
          (l.map Prod.fst).take cfg.MAX_SUGGESTIONS := by
  constructor
  · intro count i d
    unfold V1.weight
    refine mul_le_mul_of_nonneg_left ?_ (Int.natCast_nonneg count)
    push_cast
    omega
  · intro contexts patterns cfg
    exact ⟨V1.sortDescInt (V1.accumScores contexts patterns),
      (sortDescInt_perm _).symm, sortDescInt_pairwise _, rfl⟩

/-- C2: when the observation pushes the word list beyond MAX_WORDS,
saveWord scores every listed word as frequency times
max(1/10, 1 - age / week) — a fixed positive floor and a fixed one-week
decay window — sorts descending by score, keeps only the first MAX_STABLE
entries of the sorted list, and the surviving word count is at most
MAX_STABLE. -/
theorem saveWord_eviction_scoring (cfg : V2.Config) (now : ℚ) (w : String)
    (c : V2.GroupCache)
    (htrig : (V2.insertWordList c.words w).length > cfg.MAX_WORDS) :
    V2.DECAY_WINDOW_MS = 604800000 ∧ 0 < V2.SCORE_FLOOR ∧
    (V2.saveWordCore cfg now w c).words.length ≤ cfg.MAX_STABLE ∧
    ∃ l : List (String × ℚ),
      List.Perm ((V2.insertWordList c.words w).map
        (fun x => (x, V2.scoreOf (V2.updateEntries c.entries (jsLower w) now) now x))) l ∧
      l.Pairwise (fun a b => b.2 ≤ a.2) ∧
      (V2.saveWordCore cfg now w c).words = (l.take cfg.MAX_STABLE).map Prod.fst := by
  refine ⟨by norm_num [V2.DECAY_WINDOW_MS], by norm_num [V2.SCORE_FLOOR], ?_, ?_⟩
  · simp only [V2.saveWordCore, if_pos htrig]
    rw [List.length_map, List.length_take]
    exact min_le_left _ _
  · refine ⟨V2.sortDesc ((V2.insertWordList c.words w).map
      (fun x => (x, V2.scoreOf (V2.updateEntries c.entries (jsLower w) now) now x))),
      (sortDesc_perm _).symm, sortDesc_pairwise _, ?_⟩
    simp only [V2.saveWordCore, if_pos htrig]

/-- C2, witness: a concrete eviction with MAX_WORDS = 1 and MAX_STABLE = 1,
triggered by the second distinct word. -/
theorem saveWord_eviction_scoring_witness :
    (V2.insertWordList ["cat"] "car").length > (1 : Nat) ∧
    (V2.DECAY_WINDOW_MS = 604800000 ∧ 0 < V2.SCORE_FLOOR ∧
      (V2.saveWordCore { MAX_WORDS := 1, MAX_SUGGESTIONS := 5, MAX_STABLE := 1 } 0 "car"
        { words := ["cat"], entries := [("cat", { lastUsed := 0, frequency := 3 })] }).words.length ≤ 1 ∧
      ∃ l : List (String × ℚ),
        List.Perm ((V2.insertWordList ["cat"] "car").map
          (fun x => (x, V2.scoreOf (V2.updateEntries [("cat", { lastUsed := 0, frequency := 3 })]
            (jsLower "car") 0) 0 x))) l ∧
        l.Pairwise (fun a b => b.2 ≤ a.2) ∧
        (V2.saveWordCore { MAX_WORDS := 1, MAX_SUGGESTIONS := 5, MAX_STABLE := 1 } 0 "car"
          { words := ["cat"], entries := [("cat", { lastUsed := 0, frequency := 3 })] }).words =
          (l.take 1).map Prod.fst) :=
  ⟨by decide,
    saveWord_eviction_scoring { MAX_WORDS := 1, MAX_SUGGESTIONS := 5, MAX_STABLE := 1 } 0 "car"
      { words := ["cat"], entries := [("cat", { lastUsed := 0, frequency := 3 })] } (by decide)⟩

/-- C4, counterexample: a pending group whose storage write fails is
nevertheless cleared from the pending set by flushStorageSync: nothing was
written, yet the group is no longer pending, so the next flush will not
retry it. -/
theorem flush_clears_failed_group :
    (let st0 : V2.EngineState :=
      { caches := [("g", { words := ["cat"]
                           entries := [("cat", { lastUsed := 0, frequency := 1 })] })]
        tries := [], pendingWords := ["g"], storage := [] }
     "g" ∈ st0.pendingWords ∧
     (V2.flushStorageSync (fun _ => V2.DEFAULT_CONFIG) (fun _ => false) st0).storage = [] ∧
     "g" ∉ (V2.flushStorageSync (fun _ => V2.DEFAULT_CONFIG) (fun _ => false) st0).pendingWords) := by
  decide

/-- C4 (amended): flushStorageSync attempts every pending group's write,
swallowing failures, and then clears the whole pending set unconditionally:
a failed group is not retried at the next flush.  In-memory caches and
tries are untouched; when every write fails the storage is unchanged, and a
pending group whose write succeeds has its current cache (words truncated
to MAX_WORDS, with the entries map) written under its storage key. -/
theorem flushStorageSync_clears_all_pending (cfgOf : String → V2.Config)
    (writeOk : String → Bool) (st : V2.EngineState) :
    (V2.flushStorageSync cfgOf writeOk st).pendingWords = [] ∧
    (V2.flushStorageSync cfgOf writeOk st).caches = st.caches ∧
    (V2.flushStorageSync cfgOf writeOk st).tries = st.tries ∧
    ((∀ g, writeOk g = false) →
      (V2.flushStorageSync cfgOf writeOk st).storage = st.storage) ∧
    (∀ (g : String) (cache : V2.GroupCache), st.pendingWords = [g] →
      lookupA st.caches (V2.cacheKey g) = some cache → writeOk g = true →
      (V2.flushStorageSync cfgOf writeOk st).storage =
        setA st.storage (V2.wordsKey g)
          { words := cache.words.take ((cfgOf g).MAX_WORDS), entries := cache.entries }) := by
  refine ⟨rfl, ?_, ?_, ?_, ?_⟩
  · exact (flushFold_caches cfgOf writeOk st.pendingWords st).1
  · exact (flushFold_caches cfgOf writeOk st.pendingWords st).2.1
  · intro hfail
    exact flushFold_storage_allfail cfgOf writeOk st.pendingWords st hfail
  · intro g cache hp hc hwr
    show (st.pendingWords.foldl (V2.flushStep cfgOf writeOk) st).storage = _
    rw [hp]
    simp only [List.foldl_cons, List.foldl_nil]
    unfold V2.flushStep
    rw [hc, hwr]
    simp

/-- C4, witness for the amended theorem: one pending group with a
successful write is serialized and the pending set ends empty. -/
theorem flushStorageSync_clears_all_pending_witness :
    (let st0 : V2.EngineState :=
      { caches := [("g", { words := ["cat"]
                           entries := [("cat", { lastUsed := 0, frequency := 1 })] })]
        tries := [], pendingWords := ["g"], storage := [] }
     st0.pendingWords = ["g"] ∧
     lookupA st0.caches (V2.cacheKey "g") =
       some { words := ["cat"], entries := [("cat", { lastUsed := 0, frequency := 1 })] } ∧
     (V2.flushStorageSync (fun _ => V2.DEFAULT_CONFIG) (fun _ => true) st0).storage =
       setA st0.storage (V2.wordsKey "g")
         { words := (["cat"] : List String).take
             (((fun _ => V2.DEFAULT_CONFIG) "g").MAX_WORDS)
           entries := [("cat", { lastUsed := 0, frequency := 1 })] } ∧
     (V2.flushStorageSync (fun _ => V2.DEFAULT_CONFIG) (fun _ => true) st0).pendingWords = []) := by
  refine ⟨rfl, by decide, ?_, ?_⟩
  · exact (flushStorageSync_clears_all_pending (fun _ => V2.DEFAULT_CONFIG) (fun _ => true)
      _).2.2.2.2 "g" { words := ["cat"], entries := [("cat", { lastUsed := 0, frequency := 1 })] }
      rfl (by decide) rfl
  · exact (flushStorageSync_clears_all_pending (fun _ => V2.DEFAULT_CONFIG) (fun _ => true) _).1

theorem cacheKey_ne_empty (g : String) : V2.cacheKey g ≠ "" := by
  unfold V2.cacheKey
  by_cases h : g = ""
  · rw [if_pos h]
    decide
  · rw [if_neg h]
    exact h

theorem loadWords_preserves (cfgOf : String → V2.Config) (g : String)
    (st : V2.EngineState) (k : String) (hk : V2.cacheKey g ≠ k) :
    lookupA (V2.loadWords cfgOf g st).2.caches k = lookupA st.caches k ∧
    lookupA (V2.loadWords cfgOf g st).2.tries k = lookupA st.tries k ∧
    (V2.loadWords cfgOf g st).2.storage = st.storage ∧
    (V2.loadWords cfgOf g st).2.pendingWords = st.pendingWords := by
  simp only [V2.loadWords]
  cases hc : lookupA st.caches (V2.cacheKey g) with
  | some c => exact ⟨rfl, rfl, rfl, rfl⟩
  | none =>
    refine ⟨?_, ?_, rfl, rfl⟩
    · exact lookupA_setA_ne _ _ _ _ hk
    · exact lookupA_setA_ne _ _ _ _ hk

/-- C7, counterexample: the empty-string group (the default group) and the
group named "default" are distinct identifiers, yet saveWord invoked with
group "default" is visible to listWords invoked with the empty-string
group: both collapse onto the cache key "default", so these two groups
share their vocabulary. -/
theorem default_group_aliasing :
    ("" : String) ≠ "default" ∧
    (V2.listWords (fun _ => V2.DEFAULT_CONFIG) ""
      (V2.saveWord (fun _ => V2.DEFAULT_CONFIG) "cat" "default" 0 V2.emptyState)).1 =
      ["cat"] := by
  decide

/-- C7 (amended): all in-memory word state is keyed by
cacheKey group = (group or "default" when empty), so the empty-string group
and "default" alias the same data; any two groups with distinct cache keys
are isolated: an observation on one never reads or changes the other's
cache or trie (looked up both under its cache key and under its raw name,
as the suggestion path does), and never touches storage. -/
theorem saveWord_group_isolation (cfgOf : String → V2.Config) (w g1 g2 : String)
    (now : ℚ) (st : V2.EngineState) (hck : V2.cacheKey g1 ≠ V2.cacheKey g2) :
    lookupA (V2.saveWord cfgOf w g1 now st).caches (V2.cacheKey g2) =
      lookupA st.caches (V2.cacheKey g2) ∧
    lookupA (V2.saveWord cfgOf w g1 now st).tries (V2.cacheKey g2) =
      lookupA st.tries (V2.cacheKey g2) ∧
    lookupA (V2.saveWord cfgOf w g1 now st).tries g2 = lookupA st.tries g2 ∧
    (V2.saveWord cfgOf w g1 now st).storage = st.storage := by
  have hraw : V2.cacheKey g1 ≠ g2 := by
    by_cases h2 : g2 = ""
    · rw [h2]
      exact cacheKey_ne_empty g1
    · intro he
      exact hck (by rw [he, V2.cacheKey, if_neg h2])
  simp only [V2.saveWord]
  by_cases hg : (jsTrim w = "" ∨ jsLen (jsTrim w) < 3)
  · rw [if_pos hg]
    exact ⟨rfl, rfl, rfl, rfl⟩
  · rw [if_neg hg]
    by_cases hres : (lookupA st.caches (V2.cacheKey g1)).isSome
    · rw [if_pos hres]
      exact ⟨lookupA_setA_ne _ _ _ _ hck, lookupA_setA_ne _ _ _ _ hck,
        lookupA_setA_ne _ _ _ _ hraw, rfl⟩
    · rw [if_neg hres]
      have hp := loadWords_preserves cfgOf g1 st (V2.cacheKey g2) hck
      have hp' := loadWords_preserves cfgOf g1 st g2 hraw
      refine ⟨?_, ?_, ?_, ?_⟩
      · rw [lookupA_setA_ne _ _ _ _ hck]
        exact hp.1
      · rw [lookupA_setA_ne _ _ _ _ hck]
        exact hp.2.1
      · rw [lookupA_setA_ne _ _ _ _ hraw]
        exact hp'.2.1
      · exact hp.2.2.1

/-- C7, witness for the amended theorem: groups "a" and "b" have distinct
cache keys and an observation on "a" leaves "b" untouched. -/
theorem saveWord_group_isolation_witness :
    (V2.cacheKey "a" ≠ V2.cacheKey "b") ∧
    (lookupA (V2.saveWord (fun _ => V2.DEFAULT_CONFIG) "cat" "a" 0 V2.emptyState).caches
        (V2.cacheKey "b") = lookupA V2.emptyState.caches (V2.cacheKey "b") ∧
      lookupA (V2.saveWord (fun _ => V2.DEFAULT_CONFIG) "cat" "a" 0 V2.emptyState).tries
        (V2.cacheKey "b") = lookupA V2.emptyState.tries (V2.cacheKey "b") ∧
      lookupA (V2.saveWord (fun _ => V2.DEFAULT_CONFIG) "cat" "a" 0 V2.emptyState).tries "b" =
        lookupA V2.emptyState.tries "b" ∧
      (V2.saveWord (fun _ => V2.DEFAULT_CONFIG) "cat" "a" 0 V2.emptyState).storage =
        V2.emptyState.storage) :=
  ⟨by decide,
    saveWord_group_isolation (fun _ => V2.DEFAULT_CONFIG) "cat" "a" "b" 0 V2.emptyState
      (by decide)⟩

/-- C5, counterexample: with only MAX_WORDS set to 1 (MAX_STABLE keeping its
default 100), observing "cat" three times and then "car" once triggers the
eviction, but the eviction keeps the top MAX_STABLE = 100 scored words, so
"car" is not dropped: the resulting vocabulary is ["cat", "car"], with
"cat" merely ranked first. -/
theorem maxwords_one_keeps_car :
    (let cfgOf : String → V2.Config :=
       fun _ => { MAX_WORDS := 1, MAX_SUGGESTIONS := 5, MAX_STABLE := 100 }
     lookupA (V2.saveWord cfgOf "car" "g" 0
       (V2.saveWord cfgOf "cat" "g" 0
         (V2.saveWord cfgOf "cat" "g" 0
           (V2.saveWord cfgOf "cat" "g" 0 V2.emptyState)))).caches "g" =
       some { words := ["cat", "car"]
              entries := [("cat", { lastUsed := 0, frequency := 3 }),
                          ("car", { lastUsed := 0, frequency := 1 })] }) := by
  norm_num +decide [V2.saveWord, V2.saveWordCore, V2.loadWords, V2.emptyState,
    V2.cacheKey, V2.wordsKey, V2.updateEntries, V2.insertWordList,
    V2.removeFirstLower, V2.scoreOf, V2.sortDesc, V2.SCORE_FLOOR,
    V2.DECAY_WINDOW_MS, jsTrim, jsLen, jsLower, lookupA, setA, addSet,
    List.insertionSort, List.orderedInsert, max_def]

/-- C5 (amended): the cat/car scenario drops "car" only when the eviction
ceiling MAX_STABLE is also configured to 1: then the eviction keeps the
higher-frequency "cat" and drops "car", together with its entry. -/
theorem maxstable_one_drops_car :
    (let cfgOf : String → V2.Config :=
       fun _ => { MAX_WORDS := 1, MAX_SUGGESTIONS := 5, MAX_STABLE := 1 }
     lookupA (V2.saveWord cfgOf "car" "g" 0
       (V2.saveWord cfgOf "cat" "g" 0
         (V2.saveWord cfgOf "cat" "g" 0
           (V2.saveWord cfgOf "cat" "g" 0 V2.emptyState)))).caches "g" =
       some { words := ["cat"]
              entries := [("cat", { lastUsed := 0, frequency := 3 })] }) := by
  norm_num +decide [V2.saveWord, V2.saveWordCore, V2.loadWords, V2.emptyState,
    V2.cacheKey, V2.wordsKey, V2.updateEntries, V2.insertWordList,
    V2.removeFirstLower, V2.scoreOf, V2.sortDesc, V2.SCORE_FLOOR,
    V2.DECAY_WINDOW_MS, jsTrim, jsLen, jsLower, lookupA, setA, addSet,
    List.insertionSort, List.orderedInsert, max_def]

/-- C3, counterexample: with MAX_WORDS = MAX_STABLE = 1, observing "car"
and then (two weeks later) "cat" evicts "car" from the vocabulary and its
entry from the normalized-form map, but the trie is not rebuilt: a
subsequent prefix search for "ca" still returns the evicted "car" (even
ahead of the surviving "cat"). -/
theorem evicted_word_still_suggested :
    (let cfgOf : String → V2.Config :=
       fun _ => { MAX_WORDS := 1, MAX_SUGGESTIONS := 5, MAX_STABLE := 1 }
     lookupA (V2.saveWord cfgOf "cat" "g" 1209600000
       (V2.saveWord cfgOf "car" "g" 0 V2.emptyState)).caches "g" =
       some { words := ["cat"]
              entries := [("cat", { lastUsed := 1209600000, frequency := 1 })] } ∧
     (V2.findSuggestionsForToken cfgOf "ca" "g"
       (V2.saveWord cfgOf "cat" "g" 1209600000
         (V2.saveWord cfgOf "car" "g" 0 V2.emptyState))).1 = ["car", "cat"]) := by
  constructor
  · norm_num +decide [V2.saveWord, V2.saveWordCore, V2.loadWords, V2.emptyState,
      V2.cacheKey, V2.wordsKey, V2.updateEntries, V2.insertWordList,
      V2.removeFirstLower, V2.scoreOf, V2.sortDesc, V2.SCORE_FLOOR,
      V2.DECAY_WINDOW_MS, jsTrim, jsLen, jsLower, lookupA, setA, addSet,
      List.insertionSort, List.orderedInsert, max_def]
  · norm_num +decide [V2.saveWord, V2.saveWordCore, V2.loadWords, V2.emptyState,
      V2.cacheKey, V2.wordsKey, V2.updateEntries, V2.insertWordList,
      V2.removeFirstLower, V2.scoreOf, V2.sortDesc, V2.SCORE_FLOOR,
      V2.DECAY_WINDOW_MS, jsTrim, jsLen, jsLower, lookupA, setA, addSet,
      List.insertionSort, List.orderedInsert, max_def,
      V2.findSuggestionsForToken, Trie.search, Trie.insertW, Trie.insertList,
      Trie.empty, childFind, childSet, descendList, collectGo, collectKids,
      rebuildTrie]

/-- C3 (amended): when the eviction runs, the surviving cache is consistent
on the entries side — every remaining entry key is a surviving word's
normalized form, and any normalized form no longer among the surviving
words has no entry — but the Prefix Index is NOT rebuilt from the
surviving set: saveWord merely inserts the new word into the existing trie,
so evicted words' normalized forms remain in the trie and a subsequent
prefix search can still return an evicted word. -/
theorem eviction_prunes_entries_but_not_trie (cfgOf : String → V2.Config)
    (w g : String) (now : ℚ) (st : V2.EngineState) (tr : Trie) (c : V2.GroupCache)
    (hw : ¬ (jsTrim w = "" ∨ jsLen (jsTrim w) < 3))
    (hc : lookupA st.caches (V2.cacheKey g) = some c)
    (ht : lookupA st.tries (V2.cacheKey g) = some tr)
    (htrig : (V2.insertWordList c.words (jsTrim w)).length > (cfgOf g).MAX_WORDS) :
    lookupA (V2.saveWord cfgOf w g now st).tries (V2.cacheKey g) =
      some (tr.insertW (jsTrim w)) ∧
    ∃ c', lookupA (V2.saveWord cfgOf w g now st).caches (V2.cacheKey g) = some c' ∧
      (∀ p ∈ c'.entries, p.1 ∈ c'.words.map jsLower) ∧
      (∀ k, k ∉ c'.words.map jsLower → lookupA c'.entries k = none) := by
  have hsome : (lookupA st.caches (V2.cacheKey g)).isSome = true := by
    rw [hc]
    rfl
  simp only [V2.saveWord]
  rw [if_neg hw, if_pos hsome, hc, ht]
  simp only [Option.getD_some]
  refine ⟨lookupA_setA_self _ _ _, ⟨_, lookupA_setA_self _ _ _, ?_, ?_⟩⟩
  · intro p hp
    simp only [V2.saveWordCore, if_pos htrig] at hp ⊢
    have h2 := (List.mem_filter.mp hp).2
    simpa using h2
  · intro k hk
    simp only [V2.saveWordCore, if_pos htrig] at hk ⊢
    refine lookupA_filter_keypred _ _ _ ?_
    simpa using hk

/-- C3, witness for the amended theorem at the car/cat instance. -/
theorem eviction_prunes_entries_but_not_trie_witness :
    (let cfgOf : String → V2.Config :=
       fun _ => { MAX_WORDS := 1, MAX_SUGGESTIONS := 5, MAX_STABLE := 1 }
     let c0 : V2.GroupCache :=
       { words := ["car"], entries := [("car", { lastUsed := 0, frequency := 1 })] }
     let st0 : V2.EngineState :=
       { caches := [("g", c0)], tries := [("g", Trie.empty.insertW "car")]
         pendingWords := ["g"], storage := [] }
     (¬ (jsTrim "cat" = "" ∨ jsLen (jsTrim "cat") < 3)) ∧
     lookupA st0.caches (V2.cacheKey "g") = some c0 ∧
     lookupA st0.tries (V2.cacheKey "g") = some (Trie.empty.insertW "car") ∧
     (V2.insertWordList c0.words (jsTrim "cat")).length > ((cfgOf "g").MAX_WORDS) ∧
     (lookupA (V2.saveWord cfgOf "cat" "g" 1209600000 st0).tries (V2.cacheKey "g") =
        some ((Trie.empty.insertW "car").insertW (jsTrim "cat")) ∧
      ∃ c', lookupA (V2.saveWord cfgOf "cat" "g" 1209600000 st0).caches (V2.cacheKey "g") =
          some c' ∧
        (∀ p ∈ c'.entries, p.1 ∈ c'.words.map jsLower) ∧
        (∀ k, k ∉ c'.words.map jsLower → lookupA c'.entries k = none))) :=
  ⟨by decide, by decide, rfl, by decide,
    eviction_prunes_entries_but_not_trie
      (fun _ => { MAX_WORDS := 1, MAX_SUGGESTIONS := 5, MAX_STABLE := 1 })
      "cat" "g" 1209600000
      { caches := [("g", { words := ["car"]
                           entries := [("car", { lastUsed := 0, frequency := 1 })] })]
        tries := [("g", Trie.empty.insertW "car")]
        pendingWords := ["g"], storage := [] }
      (Trie.empty.insertW "car")
      { words := ["car"], entries := [("car", { lastUsed := 0, frequency := 1 })] }
      (by decide) (by decide) rfl (by decide)⟩

/-- C6: observing the same (valid, at least 3-character) word n ≥ 1 times
on a group whose cache held no entry and no listed word for its normalized
form — and whose capacity is not exceeded, so no eviction intervenes —
leaves exactly one entry for that normalized form, with frequency exactly
n, and exactly one element of the ordered surface-form list whose
normalized form matches. -/
theorem saveWord_repeated_frequency (cfg : V2.Config) (now : ℚ) (w : String)
    (n : Nat) (c0 : V2.GroupCache) (hn : 1 ≤ n)
    (hfe : ∀ p ∈ c0.entries, p.1 ≠ jsLower w)
    (hfw : ∀ x ∈ c0.words, jsLower x ≠ jsLower w)
    (hcap : c0.words.length + 1 ≤ cfg.MAX_WORDS) :
    ((V2.iterateSave cfg now w n c0).entries.filter
        (fun p => p.1 = jsLower w)).map (fun p => p.2.frequency) = [n] ∧
    ((V2.iterateSave cfg now w n c0).words.filter
        (fun x => jsLower x = jsLower w)).length = 1 := by
  rw [iterateSave_closed cfg now w n c0 hn hfe hfw hcap]
  constructor
  · show ((c0.entries ++ [(jsLower w, ({ lastUsed := now, frequency := n } : V2.WordEntry))]).filter _).map _ = _
    rw [List.filter_append]
    have h1 : c0.entries.filter (fun p => decide (p.1 = jsLower w)) = [] := by
      rw [List.filter_eq_nil_iff]
      intro p hp
      simpa using hfe p hp
    rw [h1]
    simp
  · show ((w :: c0.words).filter _).length = 1
    have h1 : c0.words.filter (fun x => decide (jsLower x = jsLower w)) = [] := by
      rw [List.filter_eq_nil_iff]
      intro x hx
      simpa using hfw x hx
    rw [List.filter_cons_of_pos (by simp), h1]
    rfl

/-- C6, witness: three observations of "cat" on a cache holding only "dog"
leave one "cat" entry with frequency 3 and one matching listed word. -/
theorem saveWord_repeated_frequency_witness :
    ((1 : Nat) ≤ 3) ∧
    (∀ p ∈ ([("dog", { lastUsed := 0, frequency := 5 })] : List (String × V2.WordEntry)),
      p.1 ≠ jsLower "cat") ∧
    (∀ x ∈ (["dog"] : List String), jsLower x ≠ jsLower "cat") ∧
    ((["dog"] : List String).length + 1 ≤ V2.DEFAULT_CONFIG.MAX_WORDS) ∧
    (((V2.iterateSave V2.DEFAULT_CONFIG 0 "cat" 3
        { words := ["dog"]
          entries := [("dog", { lastUsed := 0, frequency := 5 })] }).entries.filter
        (fun p => p.1 = jsLower "cat")).map (fun p => p.2.frequency) = [3] ∧
      ((V2.iterateSave V2.DEFAULT_CONFIG 0 "cat" 3
        { words := ["dog"]
          entries := [("dog", { lastUsed := 0, frequency := 5 })] }).words.filter
        (fun x => jsLower x = jsLower "cat")).length = 1) :=
  ⟨by decide, by decide, by decide, by decide,
    saveWord_repeated_frequency V2.DEFAULT_CONFIG 0 "cat" 3
      { words := ["dog"], entries := [("dog", { lastUsed := 0, frequency := 5 })] }
      (by decide) (by decide) (by decide) (by decide)⟩
